import Mathlib

/-!
Shallow embedding of the Matrixify pricing/tagging reconciliation engine
(main script variant: no-VAT constants), together with theorems about its
classifier, pricing model, tag reconciler, diff engine and test-subset
selector.

Conventions of the embedding:
* JS numbers are idealized as exact rationals (`ℚ`); the transcendental
  pricing formulas (`Math.exp`, `Math.log10`, `Math.pow`) are idealized
  over the reals (`ℝ`).
* A JS value that is either a finite number or `null` is `Option ℚ`.
* A CSV cell that is either empty or carries a stringified number or a raw
  string is modelled by `MfCell`: `MfCell.raw s` is the literal string `s`
  (empty cell = `raw ""`), `MfCell.numv x` is `String(x)` for a finite
  number `x` (always non-empty, and parses back to `x`).
* `Number(s)` for a decimal string literal (optional sign, digits, optional
  fraction and exponent, surrounding whitespace; empty/whitespace = 0) is
  modelled by `jsNumber`; hexadecimal/octal/binary and `Infinity` forms are
  mapped to `none`, which coincides with `toNumberOrNull`'s result on them
  since that function also nulls out non-finite values.
* The two `throw` statements guarding the emitted instruction rows are
  modelled by `Except.error`.
-/

namespace Matrixify

/-! ### JS string and number primitives -/

/-- Lowercasing of a JS string (`String.prototype.toLowerCase`, ASCII range). -/
def jsToLower (s : String) : String := String.mk (s.data.map Char.toLower)

/-- Whitespace trimming on a character list (`String.prototype.trim`). -/
def trimChars (cs : List Char) : List Char :=
  ((cs.dropWhile Char.isWhitespace).reverse.dropWhile Char.isWhitespace).reverse

/-- `normTag` from the source: lowercase then trim. -/
def normTag (t : String) : String := String.mk (trimChars (t.data.map Char.toLower))

/-- `String.prototype.replace(",", ".")`: replaces the first comma only. -/
def replaceFirstComma : List Char → List Char
  | [] => []
  | c :: cs => if c = ',' then '.' :: cs else c :: replaceFirstComma cs

/-- Numeric value of a digit list, most significant first. -/
def digitsToNat (ds : List Char) : ℕ :=
  ds.foldl (fun a c => 10 * a + (c.toNat - 48)) 0

/-- Optionally signed digit run (the exponent part of a JS numeric literal),
as a sign flag (`true` = negative) and magnitude. -/
def parseSignedDigits (cs : List Char) : Option (Bool × ℕ) :=
  match cs with
  | '+' :: ds => if ¬ ds = [] ∧ ds.all Char.isDigit then some (false, digitsToNat ds) else none
  | '-' :: ds => if ¬ ds = [] ∧ ds.all Char.isDigit then some (true, digitsToNat ds) else none
  | ds => if ¬ ds = [] ∧ ds.all Char.isDigit then some (false, digitsToNat ds) else none

/-- Exponent suffix of a JS numeric literal (`e`/`E` then signed digits); an
empty remainder means exponent 0. -/
def parseExpPart : List Char → Option (Bool × ℕ)
  | [] => some (false, 0)
  | 'e' :: rest => parseSignedDigits rest
  | 'E' :: rest => parseSignedDigits rest
  | _ => none

/-- Scale a mantissa by a signed power of ten. -/
def applyExp (m : ℚ) (e : Bool × ℕ) : ℚ :=
  if e.1 then m / (10 : ℚ) ^ e.2 else m * (10 : ℚ) ^ e.2

/-- Unsigned decimal literal `digits [. digits] [exp]` or `. digits [exp]`,
as accepted by JS `Number`. -/
def parseUnsignedDec (cs : List Char) : Option ℚ :=
  let ip := cs.takeWhile Char.isDigit
  let r1 := cs.dropWhile Char.isDigit
  match r1 with
  | '.' :: r2 =>
    let fp := r2.takeWhile Char.isDigit
    let r3 := r2.dropWhile Char.isDigit
    if ip = [] ∧ fp = [] then none
    else (parseExpPart r3).map
      (applyExp ((digitsToNat ip : ℚ) + (digitsToNat fp : ℚ) / (10 : ℚ) ^ fp.length))
  | _ =>
    if ip = [] then none
    else (parseExpPart r1).map (applyExp (digitsToNat ip : ℚ))

/-- JS `Number(s)` on decimal string literals: whitespace-trimmed, empty string
is 0, otherwise an optionally signed decimal literal; anything else is NaN
(`none`). -/
def jsNumber (s : String) : Option ℚ :=
  let t := trimChars s.data
  if t = [] then some 0
  else
    match t with
    | '+' :: cs => parseUnsignedDec cs
    | '-' :: cs => (parseUnsignedDec cs).map Neg.neg
    | cs => parseUnsignedDec cs

/-- `toNumberOrNull` from the source: replace the first comma by a dot, then
`Number`, nulling out non-finite results. -/
def toNumberOrNull (s : String) : Option ℚ :=
  jsNumber (String.mk (replaceFirstComma s.data))

/-- The variant-position cell parse from the row loop:
`toNumberOrNull(cells[idx.VARIANT_POS]) ?? 999999`. -/
def parseVariantPos (cell : String) : ℚ :=
  (toNumberOrNull cell).getD 999999

/-- `approxEqualMoney` from the source, on number-or-null values: `null`
converts to 0 (via `toNumberOrNull` of the empty string), then compare with
absolute tolerance 0.005. -/
def approxEqualMoney (a b : Option ℚ) : Bool :=
  decide (|a.getD 0 - b.getD 0| < 0.005)

/-! ### Tags -/

/-- The three mutually exclusive type tags. -/
def TYPE_TAGS : List String := ["used", "standard", "low-margin"]

/-- `hasUsedGateway` from the source: case-insensitive (normalized) membership
of either gateway marker. -/
def hasUsedGateway (tagsArr : List String) : Bool :=
  decide ("preowned / defect" ∈ tagsArr.map normTag ∨ "preloved" ∈ tagsArr.map normTag)

/-- `hasCnfdnt` from the source: the manual-exclusion tag. -/
def hasCnfdnt (tagsArr : List String) : Bool :=
  decide ("cnfdnt" ∈ tagsArr.map normTag)

/-- Result record of `computeTagDiff`. -/
structure TagDiff where
  desiredTagsArr : List String
  tags_to_add : List String
  tags_to_remove : List String
  doTags : Bool
deriving DecidableEq

/-- `computeTagDiff` from the source. -/
def computeTagDiff (currentTagsArr : List String) (desiredType : String) : TagDiff :=
  let cur := currentTagsArr
  let curLower := cur.map normTag
  if desiredType ∈ TYPE_TAGS then
    let tags_to_add := if desiredType ∈ curLower then [] else [desiredType]
    let tags_to_remove := TYPE_TAGS.filter (fun t => decide (¬ t = desiredType ∧ t ∈ curLower))
    let doTags := decide (¬ tags_to_add = [] ∨ ¬ tags_to_remove = [])
    let cleaned := cur.filter (fun t => decide (¬ normTag t ∈ TYPE_TAGS))
    let desiredTagsArr := if desiredType ∈ cleaned.map normTag then cleaned else cleaned ++ [desiredType]
    ⟨desiredTagsArr, tags_to_add, tags_to_remove, doTags⟩
  else
    ⟨cur, [], [], false⟩

/-! ### Classifier (`determineTypeArigato`, no-VAT variant) -/

/-- Projected worst-case gross margin `G` from `determineTypeArigato`:
a maximum-discount sale at `d_max = 0.51` minus cost, shipping, affiliate fee
and other fee (no VAT scaling). -/
def marginG (M C : ℚ) : ℚ :=
  let d_max : ℚ := 0.51
  let ship_cost : ℚ := 12.9
  let cust_ship : ℚ := 8.5
  let aff_rate : ℚ := 0.12
  let other_rate : ℚ := 0.0455
  let P_sale_max := M * (1 - d_max)
  let affiliate_fee := P_sale_max * aff_rate
  let gross_with_ship := P_sale_max + cust_ship
  let other_fee := gross_with_ship * other_rate
  P_sale_max - C - ship_cost - affiliate_fee - other_fee

/-- `determineTypeArigato` from the source. -/
def determineTypeArigato (M C : ℚ) (tagsArr : List String) : String :=
  if ¬ 0 < M ∨ ¬ 0 < C then "skip"
  else if hasUsedGateway tagsArr then "used"
  else if 0 ≤ marginG M C then "standard" else "low-margin"

/-! ### Data model -/

/-- A CSV cell holding either a literal string or a stringified finite number. -/
inductive MfCell where
  | raw (s : String)
  | numv (x : ℚ)
deriving DecidableEq

/-- `toNumberOrNull` on an `MfCell` (a stringified finite number parses back
to itself). -/
def mfParse : MfCell → Option ℚ
  | MfCell.raw s => toNumberOrNull s
  | MfCell.numv x => some x

/-- JS truthiness of the cell as a string (non-empty); `String(x)` of a finite
number is never empty. -/
def mfTruthy : MfCell → Bool
  | MfCell.raw s => decide (¬ s = "")
  | MfCell.numv _ => true

/-- `c ? String(c) : ""` on a cell. -/
def mfPreserve (c : MfCell) : MfCell :=
  if mfTruthy c then c else MfCell.raw ""

/-- One parsed variant row. -/
structure Variant where
  variantId : String
  pos : ℚ
  price : Option ℚ
  compareAt : Option ℚ
  cost : Option ℚ
deriving DecidableEq

/-- One product aggregate, as assembled by the row loop. -/
structure Product where
  productId : String
  title : String
  handle : String
  status : String
  tagsArr : List String
  asLowAsCurrent : MfCell
  variants : List Variant
deriving DecidableEq

/-- One emitted Matrixify import row. A variant-price cell of `none` is the
empty cell. -/
structure ImportRow where
  id : String
  command : String
  tags : String
  tagsCommand : String
  status : String
  variantId : String
  variantCommand : String
  variantPrice : Option ℚ
  metafield : MfCell
deriving DecidableEq

/-- An all-empty row (used only as the default for list indexing). -/
def emptyRow : ImportRow := ⟨"", "", "", "", "", "", "", none, MfCell.raw ""⟩

/-- Base-variant selection: `variants.reduce((best, v) => (!best || v.pos < best.pos) ? v : best, null)`. -/
def baseVariant (vs : List Variant) : Option Variant :=
  vs.foldl
    (fun best v =>
      match best with
      | none => some v
      | some b => if v.pos < b.pos then some v else some b)
    none

/-! ### Per-product derived state (rational part) -/

def productBase (p : Product) : Option Variant := baseVariant p.variants

/-- `const msrpGross = base?.compareAt ?? 0`. -/
def productMsrpGross (p : Product) : ℚ := ((productBase p).bind Variant.compareAt).getD 0

/-- `const M = msrpGross > 0 ? msrpGross : 0`. -/
def productMrefPrice (p : Product) : ℚ :=
  if 0 < productMsrpGross p then productMsrpGross p else 0

/-- `const C = base?.cost ?? 0`. -/
def productCost (p : Product) : ℚ := ((productBase p).bind Variant.cost).getD 0

/-- `const missingMC = !(M > 0 && C > 0)`. -/
def productMissingMC (p : Product) : Bool :=
  decide (¬ (0 < productMrefPrice p ∧ 0 < productCost p))

/-- `const doDraft = missingMC && String(p.status || "").toLowerCase() !== "draft"`. -/
def productDoDraft (p : Product) : Bool :=
  productMissingMC p && decide (¬ jsToLower p.status = "draft")

/-- `const desiredType = missingMC ? "skip" : determineTypeArigato(M, C, p.tagsArr)`. -/
def productDesiredType (p : Product) : String :=
  if productMissingMC p then "skip"
  else determineTypeArigato (productMrefPrice p) (productCost p) p.tagsArr

/-- The tag diff, computed only for priced regimes; otherwise the no-op diff. -/
def productTagDiff (p : Product) : TagDiff :=
  if !productMissingMC p && decide (productDesiredType p ∈ TYPE_TAGS) then
    computeTagDiff p.tagsArr (productDesiredType p)
  else ⟨p.tagsArr, [], [], false⟩

/-- `const currentMf = toNumberOrNull(p.asLowAsCurrent)`. -/
def productCurrentMf (p : Product) : Option ℚ := mfParse p.asLowAsCurrent

/-- `const primaryVariantId = base?.variantId || (p.variants[0]?.variantId ?? "")`. -/
def productPrimaryVariantId (p : Product) : String :=
  let bvid := ((productBase p).map Variant.variantId).getD ""
  if ¬ bvid = "" then bvid else ((p.variants.head?).map Variant.variantId).getD ""

/-- Tag list joined for the Tags cell (`join(", ")`). -/
def joinTags (l : List String) : String := String.intercalate ", " l

/-- Secondary import row: only id, command and the variant price update (plus
the stable metafield cell the source repeats on every row of the product). -/
def mkSecondaryRow (pid : String) (pn : Option ℚ) (mf : MfCell) (vid : String) : ImportRow :=
  ⟨pid, "UPDATE", "", "", "", vid, "UPDATE", pn, mf⟩

/-! ### Test-subset selection (`Test-20 from only-changes`) -/

/-- The by-type metadata of one changed product, as used by the test-file
selection. -/
structure ChangeItem where
  productId : String
  type : String
deriving DecidableEq

/-- The test-20 selection from the source:
`[...pick(std, 8), ...pick(lm, 6), ...pick(used, 6)].slice(0, 20)`. -/
def pickTest20 (changeItems : List ChangeItem) : List ChangeItem :=
  let used := changeItems.filter (fun x => x.type == "used")
  let std := changeItems.filter (fun x => x.type == "standard")
  let lm := changeItems.filter (fun x => x.type == "low-margin")
  ((std.take 8) ++ (lm.take 6) ++ (used.take 6)).take 20

/-! ### Concrete data used by counterexamples and witnesses -/

/-- A used-gateway product with an existing advertised-from value and two
variants, both of which need a price update. -/
def exampleC6 : Product :=
  ⟨"p1", "", "", "Active", ["preloved"], MfCell.raw "5",
    [⟨"1", 1, none, some 1000, some 300⟩, ⟨"2", 2, none, some 1000, some 300⟩]⟩

/-- A variant whose position cell was empty. -/
def vEmptyPos : Variant := ⟨"a", parseVariantPos "", none, none, none⟩

/-- A variant whose position cell parses to 1. -/
def vOne : Variant := ⟨"b", parseVariantPos "1", none, none, none⟩

/-- Nine changed products, all of regime `standard`. -/
def itemsNine : List ChangeItem :=
  [⟨"1", "standard"⟩, ⟨"2", "standard"⟩, ⟨"3", "standard"⟩, ⟨"4", "standard"⟩,
   ⟨"5", "standard"⟩, ⟨"6", "standard"⟩, ⟨"7", "standard"⟩, ⟨"8", "standard"⟩,
   ⟨"9", "standard"⟩]

/-! ### Pricing model (real-valued part) -/

noncomputable section

/-- `round2` from the source (`Math.round(x*100)/100`, half away from zero on
positive halves, i.e. half-up), landing in the exactly representable
2-decimal rationals. -/
def round2q (x : ℝ) : ℚ := ((round (x * 100) : ℤ) : ℚ) / 100

/-- `clamp(x, a, b) = Math.max(a, Math.min(b, x))`. -/
def clampR (x a b : ℝ) : ℝ := max a (min b x)

/-- The cost-plus parameter table rows. -/
structure PParams where
  alpha : ℝ
  beta : ℝ
  gamma : ℝ
  N : ℝ
  K0 : ℝ
  k : ℝ

/-- Constants `U` (used regime). -/
def usedParams : PParams := ⟨0.25, 1.20, 0.20, 35.00, 200.0, 200.0⟩

/-- Constants `LM` (low-margin regime). -/
def lmParams : PParams := ⟨0.40, 0.90, 0.00, 35.00, 500.0, 300.0⟩

/-- `sM = 1 / (1 + Math.exp((M - K0) / k))`. -/
def sigmoidM (M : ℚ) (P : PParams) : ℝ :=
  1 / (1 + Real.exp (((M : ℝ) - P.K0) / P.k))

/-- `price_raw = C * (1 + alpha + beta * log10(M/C) + gamma * sM) + N`. -/
def costPlusRaw (M C : ℚ) (P : PParams) : ℝ :=
  (C : ℝ) * (1 + P.alpha + P.beta * Real.logb 10 ((M : ℝ) / (C : ℝ)) + P.gamma * sigmoidM M P) + P.N

/-- `d = clamp(1 - C/M, 0, 0.99)` (standard regime). -/
def stdD (M C : ℚ) : ℝ := clampR (1 - (C : ℝ) / (M : ℝ)) 0 0.99

/-- `mu_d = mu0 + beta_disc * (L_d - L_dref)` with `mu0 = 0.75`,
`beta_disc = 0`, `d_ref = 0.91`. -/
def stdMuD (M C : ℚ) : ℝ :=
  0.75 + 0.00 * (Real.logb 10 (1 / (1 - stdD M C)) - Real.logb 10 (1 / (1 - 0.91)))

/-- `m_shape = (M / M_ref) ^ (-gamma_M)` with `M_ref = 25000`, `gamma_M = 0.23`. -/
def stdMShape (M : ℚ) : ℝ := ((M : ℝ) / 25000) ^ (-0.23 : ℝ)

/-- `A_M = M * m_shape / (1 - d_max)` with `d_max = 0.51`. -/
def stdAM (M : ℚ) : ℝ := ((M : ℝ) * stdMShape M) / (1 - 0.51)

/-- `B_d = (1-rho)*(1+mu_d)*(1-d) + rho*(1+mu0)*(1-d_ref)` with `rho = 0.40`. -/
def stdBd (M C : ℚ) : ℝ :=
  (1 - 0.40) * (1 + stdMuD M C) * (1 - stdD M C) + 0.40 * (1 + 0.75) * (1 - 0.91)

/-- `P_hidden = Math.min(M, A_M * B_d)`. -/
def stdHidden (M C : ℚ) : ℝ := min (M : ℝ) (stdAM M * stdBd M C)

/-- Result record of `computePricing` (`ok: false` is `none`). -/
structure PricePair where
  price_new : ℚ
  as_low_as : ℚ
deriving DecidableEq

/-- `computePricing` from the source. -/
def computePricing (M C : ℚ) (type : String) : Option PricePair :=
  if ¬ 0 < M ∨ ¬ 0 < C then none
  else if type = "used" ∨ type = "low-margin" then
    let P := if type = "used" then usedParams else lmParams
    some ⟨round2q (min (M : ℝ) (costPlusRaw M C P)), round2q 0⟩
  else if type = "standard" then
    some ⟨round2q (stdHidden M C), round2q ((1 - 0.51) * stdHidden M C)⟩
  else
    some ⟨round2q (M : ℝ), round2q 0⟩

/-! ### Per-product derived state (pricing-dependent part) and row emission -/

/-- `const pricing = (!missingMC && TYPE_TAGS.includes(desiredType)) ? computePricing(M, C, desiredType) : { ok: false }`. -/
def productPricing (p : Product) : Option PricePair :=
  if !productMissingMC p && decide (productDesiredType p ∈ TYPE_TAGS) then
    computePricing (productMrefPrice p) (productCost p) (productDesiredType p)
  else none

/-- `const desiredPriceNew = pricing.ok ? pricing.price_new : null`. -/
def productPriceNew (p : Product) : Option ℚ :=
  (productPricing p).map PricePair.price_new

/-- `const desiredAsLowAs = (pricing.ok && desiredType === "standard" && pricing.as_low_as > 0) ? pricing.as_low_as : null`. -/
def productAsLowAsNew (p : Product) : Option ℚ :=
  match productPricing p with
  | some pr => if productDesiredType p = "standard" ∧ 0 < pr.as_low_as then some pr.as_low_as else none
  | none => none

/-- The ids of variants whose current price is not within tolerance of the
target price. -/
def productVariantsToUpdate (p : Product) : List String :=
  if productMissingMC p then []
  else
    match productPriceNew p with
    | some pn =>
      (p.variants.filter
        (fun v => !(v.variantId == "") && !(approxEqualMoney v.price (some pn)))).map Variant.variantId
    | none => []

/-- `const doPrice = variantsToUpdate.length > 0`. -/
def productDoPrice (p : Product) : Bool := !(productVariantsToUpdate p).isEmpty

/-- The metafield decision (standard regime only, never cleared). -/
def productDoMetafield (p : Product) : Bool :=
  !productMissingMC p && decide (productDesiredType p = "standard") &&
    (productAsLowAsNew p).isSome &&
    !((productCurrentMf p).isSome && approxEqualMoney (productCurrentMf p) (productAsLowAsNew p))

/-- `const needsChange = doDraft || tagDiff.doTags || doPrice || doMetafield`. -/
def productNeedsChange (p : Product) : Bool :=
  productDoDraft p || (productTagDiff p).doTags || productDoPrice p || productDoMetafield p

/-- The metafield cell written on every emitted row of the product: the new
value for `standard`, otherwise the preserved current value. -/
def productMfCellOut (p : Product) : MfCell :=
  match productAsLowAsNew p with
  | some al =>
    if !productMissingMC p && decide (productDesiredType p = "standard") then MfCell.numv al
    else mfPreserve p.asLowAsCurrent
  | none => mfPreserve p.asLowAsCurrent

/-- Whether the primary only-changes row carries the base variant price update. -/
def productPrimaryHasPriceUpdate (p : Product) : Bool :=
  productDoPrice p && decide (¬ productPrimaryVariantId p = "") &&
    (productVariantsToUpdate p).contains (productPrimaryVariantId p)

/-- The primary only-changes row. -/
def productOnlyPrimary (p : Product) : ImportRow :=
  ⟨p.productId, "UPDATE",
    (if (productTagDiff p).doTags then joinTags (productTagDiff p).desiredTagsArr else ""),
    (if (productTagDiff p).doTags then "REPLACE" else ""),
    (if productDoDraft p then "Draft" else ""),
    (if productPrimaryHasPriceUpdate p then productPrimaryVariantId p else ""),
    (if productPrimaryHasPriceUpdate p then "UPDATE" else ""),
    (if productPrimaryHasPriceUpdate p then productPriceNew p else none),
    productMfCellOut p⟩

/-- The only-changes secondary rows: one per remaining variant needing a price
update. -/
def productOnlySecondaries (p : Product) : List ImportRow :=
  if productDoPrice p then
    ((productVariantsToUpdate p).filter
      (fun vid => !(vid == "") && !(vid == productPrimaryVariantId p))).map
      (mkSecondaryRow p.productId (productPriceNew p) (productMfCellOut p))
  else []

/-- The only-changes rows of one product, with the fail-fast structural check. -/
def productOnlyRows (p : Product) : Except String (List ImportRow) :=
  if !productNeedsChange p then Except.ok []
  else if ¬ (productOnlyPrimary p).variantId = "" ∧ (productOnlyPrimary p).variantPrice = none then
    Except.error ("FAIL-FAST: ONLY-CHANGES: Variant ID gesetzt, aber Variant Price leer. Product ID=" ++ p.productId)
  else Except.ok (productOnlyPrimary p :: productOnlySecondaries p)

/-- `const fullDoTags = (!missingMC && TYPE_TAGS.includes(desiredType))`. -/
def productFullDoTags (p : Product) : Bool :=
  !productMissingMC p && decide (productDesiredType p ∈ TYPE_TAGS)

/-- `const fullDoPrice = (!missingMC && TYPE_TAGS.includes(desiredType) && pricing.ok && desiredPriceNew != null)`. -/
def productFullDoPrice (p : Product) : Bool :=
  !productMissingMC p && decide (productDesiredType p ∈ TYPE_TAGS) &&
    (productPricing p).isSome && (productPriceNew p).isSome

/-- Whether the primary full-import row carries the base variant price update. -/
def productFullPrimaryHas (p : Product) : Bool :=
  productFullDoPrice p && decide (¬ productPrimaryVariantId p = "")

/-- The primary full-import row. -/
def productFullPrimary (p : Product) : ImportRow :=
  ⟨p.productId, "UPDATE",
    (if productFullDoTags p then joinTags (productTagDiff p).desiredTagsArr else ""),
    (if productFullDoTags p then "REPLACE" else ""),
    (if productDoDraft p then "Draft" else ""),
    (if productFullPrimaryHas p then productPrimaryVariantId p else ""),
    (if productFullPrimaryHas p then "UPDATE" else ""),
    (if productFullPrimaryHas p then productPriceNew p else none),
    productMfCellOut p⟩

/-- The full-import secondary rows: every non-primary variant with an id. -/
def productFullSecondaries (p : Product) : List ImportRow :=
  if productFullDoPrice p then
    (p.variants.filter
      (fun v => !(v.variantId == "") && !(v.variantId == productPrimaryVariantId p))).map
      (fun v => mkSecondaryRow p.productId (productPriceNew p) (productMfCellOut p) v.variantId)
  else []

/-- The full-import rows of one product, with the fail-fast structural check. -/
def productFullRows (p : Product) : Except String (List ImportRow) :=
  if ¬ (productFullPrimary p).variantId = "" ∧ (productFullPrimary p).variantPrice = none then
    Except.error ("FAIL-FAST: FULL: Variant ID gesetzt, aber Variant Price leer. Product ID=" ++ p.productId)
  else Except.ok (productFullPrimary p :: productFullSecondaries p)

/-! ### Engine outputs per product (CNFDNT products are skipped entirely) -/

def engineDoDraft (p : Product) : Bool :=
  if hasCnfdnt p.tagsArr then false else productDoDraft p

def engineDoTags (p : Product) : Bool :=
  if hasCnfdnt p.tagsArr then false else (productTagDiff p).doTags

def engineDoPrice (p : Product) : Bool :=
  if hasCnfdnt p.tagsArr then false else productDoPrice p

def engineDoMetafield (p : Product) : Bool :=
  if hasCnfdnt p.tagsArr then false else productDoMetafield p

def engineNeedsChange (p : Product) : Bool :=
  if hasCnfdnt p.tagsArr then false else productNeedsChange p

def engineOnlyRows (p : Product) : Except String (List ImportRow) :=
  if hasCnfdnt p.tagsArr then Except.ok [] else productOnlyRows p

def engineFullRows (p : Product) : Except String (List ImportRow) :=
  if hasCnfdnt p.tagsArr then Except.ok [] else productFullRows p

/-- Whether an emission succeeded (no fail-fast throw). -/
def exceptIsOk (e : Except String (List ImportRow)) : Bool :=
  match e with
  | Except.ok _ => true
  | Except.error _ => false

/-- The emitted rows (empty on a fail-fast throw). -/
def okRows (e : Except String (List ImportRow)) : List ImportRow :=
  match e with
  | Except.ok rs => rs
  | Except.error _ => []

/-- Simulated application of one run's instructions to the product state:
every scheduled variant price is set to the target price, tags are replaced
by the desired tag list when a tag change is scheduled, the status is set to
the draft marker when scheduled, and the advertised-from metafield is set to
the new value when scheduled. CNFDNT products receive no instructions. -/
def applyRun (p : Product) : Product :=
  if hasCnfdnt p.tagsArr then p
  else
    { p with
      status := if productDoDraft p then "Draft" else p.status,
      tagsArr := if (productTagDiff p).doTags then (productTagDiff p).desiredTagsArr else p.tagsArr,
      asLowAsCurrent :=
        if productDoMetafield p then
          match productAsLowAsNew p with
          | some al => MfCell.numv al
          | none => p.asLowAsCurrent
        else p.asLowAsCurrent,
      variants :=
        p.variants.map
          (fun v =>
            if (productVariantsToUpdate p).contains v.variantId then
              { v with price := productPriceNew p }
            else v) }

end

/-! ## Theorems -/

/-! ### Rounding bounds -/

lemma round2q_le_add (x : ℝ) (q : ℚ) (h : x ≤ (q : ℝ)) : round2q x ≤ q + 1 / 200 := by
  have h1 : ((round (x * 100) : ℤ) : ℝ) ≤ ((q * 100 + 1 / 2 : ℚ) : ℝ) := by
    push_cast
    rw [round_eq]
    have h2 := Int.floor_le (x * 100 + 1 / 2)
    have h3 : x * 100 ≤ (q : ℝ) * 100 := by nlinarith
    linarith
  have h4 : ((round (x * 100) : ℤ) : ℚ) ≤ q * 100 + 1 / 2 := by exact_mod_cast h1
  unfold round2q
  linarith

lemma lt_round2q (x : ℝ) (q : ℚ) (h : (q : ℝ) ≤ x) : q - 1 / 200 < round2q x := by
  have h1 : ((q * 100 - 1 / 2 : ℚ) : ℝ) < ((round (x * 100) : ℤ) : ℝ) := by
    push_cast
    rw [round_eq]
    have h2 := Int.sub_one_lt_floor (x * 100 + 1 / 2)
    have h3 : (q : ℝ) * 100 ≤ x * 100 := by nlinarith
    linarith
  have h4 : q * 100 - 1 / 2 < ((round (x * 100) : ℤ) : ℚ) := by exact_mod_cast h1
  unfold round2q
  linarith

/-! ### `computePricing` branch shapes -/

lemma computePricing_used (M C : ℚ) (hM : 0 < M) (hC : 0 < C) :
    computePricing M C "used" =
      some ⟨round2q (min (M : ℝ) (costPlusRaw M C usedParams)), round2q 0⟩ := by
  unfold computePricing
  rw [if_neg (by push_neg; exact ⟨hM, hC⟩), if_pos (Or.inl rfl), if_pos rfl]

lemma computePricing_lm (M C : ℚ) (hM : 0 < M) (hC : 0 < C) :
    computePricing M C "low-margin" =
      some ⟨round2q (min (M : ℝ) (costPlusRaw M C lmParams)), round2q 0⟩ := by
  unfold computePricing
  rw [if_neg (by push_neg; exact ⟨hM, hC⟩), if_pos (Or.inr rfl), if_neg (by decide)]

lemma computePricing_std (M C : ℚ) (hM : 0 < M) (hC : 0 < C) :
    computePricing M C "standard" =
      some ⟨round2q (stdHidden M C), round2q ((1 - 0.51) * stdHidden M C)⟩ := by
  unfold computePricing
  rw [if_neg (by push_neg; exact ⟨hM, hC⟩), if_neg (by decide), if_pos rfl]

/-- Claim C1 (counterexample): the claim that the returned, 2-decimal-rounded
`price_new` never exceeds the reference price `M` is false: at
`M = C = 0.006` in the `used` regime the pre-rounding price is exactly `M`,
and rounding to 2 decimals returns `0.01 > 0.006`. -/
theorem priceCeiling_cex :
    (computePricing (6 / 1000) (6 / 1000) "used").isSome = true ∧
    (Option.map PricePair.price_new (computePricing (6 / 1000) (6 / 1000) "used")).getD 0 = 1 / 100 ∧
    ¬ ((1 : ℚ) / 100 ≤ 6 / 1000) := by
  have h1 := computePricing_used (6 / 1000) (6 / 1000) (by norm_num) (by norm_num)
  have hne : (((6 : ℚ) / 1000 : ℚ) : ℝ) ≠ 0 := by push_cast; norm_num
  have hlog : Real.logb 10 ((((6 : ℚ) / 1000 : ℚ) : ℝ) / (((6 : ℚ) / 1000 : ℚ) : ℝ)) = 0 := by
    rw [div_self hne]; exact Real.logb_one
  have hsig : 0 ≤ sigmoidM (6 / 1000) usedParams := by
    unfold sigmoidM
    positivity
  have hraw : (35 : ℝ) ≤ costPlusRaw (6 / 1000) (6 / 1000) usedParams := by
    unfold costPlusRaw usedParams at hsig ⊢
    rw [hlog]
    have hcast : (0 : ℝ) ≤ (((6 : ℚ) / 1000 : ℚ) : ℝ) := by push_cast; norm_num
    nlinarith
  have hmin : min ((((6 : ℚ) / 1000) : ℚ) : ℝ) (costPlusRaw (6 / 1000) (6 / 1000) usedParams) =
      ((((6 : ℚ) / 1000) : ℚ) : ℝ) := by
    apply min_eq_left
    have : ((((6 : ℚ) / 1000) : ℚ) : ℝ) ≤ 35 := by push_cast; norm_num
    linarith
  have hr : round2q ((((6 : ℚ) / 1000) : ℚ) : ℝ) = 1 / 100 := by
    unfold round2q
    have he : ((((6 : ℚ) / 1000) : ℚ) : ℝ) * 100 = 3 / 5 := by push_cast; norm_num
    rw [he, round_eq]
    have hf : ⌊(3 : ℝ) / 5 + 1 / 2⌋ = 1 := by
      rw [Int.floor_eq_iff]
      all_goals norm_num
    rw [hf]
    norm_num
  refine ⟨?_, ?_, by norm_num⟩
  · rw [h1]; rfl
  · rw [h1]
    simp only [Option.map_some', Option.getD_some]
    rw [hmin, hr]

/-- Claim C1 (amended): for every `M > 0`, `C > 0` and regime among
used/standard/low-margin, `computePricing` succeeds and the returned
`price_new` never exceeds `M + 0.005`: the pre-rounding price is clamped to
`M`, and 2-decimal rounding can add at most half a cent. -/
theorem priceCeiling_amended (M C : ℚ) (type : String) (hM : 0 < M) (hC : 0 < C)
    (ht : type ∈ TYPE_TAGS) :
    (computePricing M C type).isSome = true ∧
    ∀ pp, computePricing M C type = some pp → pp.price_new ≤ M + 1 / 200 := by
  have ht3 : type = "used" ∨ type = "standard" ∨ type = "low-margin" := by
    simpa [TYPE_TAGS] using ht
  rcases ht3 with h | h | h <;> subst h
  · rw [computePricing_used M C hM hC]
    refine ⟨rfl, fun pp hpp => ?_⟩
    rw [Option.some_inj] at hpp
    rw [← hpp]
    exact round2q_le_add _ _ (min_le_left _ _)
  · rw [computePricing_std M C hM hC]
    refine ⟨rfl, fun pp hpp => ?_⟩
    rw [Option.some_inj] at hpp
    rw [← hpp]
    exact round2q_le_add _ _ (min_le_left _ _)
  · rw [computePricing_lm M C hM hC]
    refine ⟨rfl, fun pp hpp => ?_⟩
    rw [Option.some_inj] at hpp
    rw [← hpp]
    exact round2q_le_add _ _ (min_le_left _ _)

/-- Witness for the amended claim C1 at `M = C = 1`, regime `used`. -/
theorem priceCeiling_amended_witness :
    (0 : ℚ) < 1 ∧ "used" ∈ TYPE_TAGS ∧ (computePricing 1 1 "used").isSome = true :=
  ⟨by norm_num, by decide, (priceCeiling_amended 1 1 "used" (by norm_num) (by norm_num) (by decide)).1⟩

/-! ### Tag reconciler lemmas -/

lemma normTag_type_fix (t : String) (ht : t ∈ TYPE_TAGS) : normTag t = t := by
  fin_cases ht
  all_goals decide

lemma cleaned_noType (cur : List String) (t : String) (ht : t ∈ TYPE_TAGS) :
    ¬ t ∈ (cur.filter (fun s => decide (¬ normTag s ∈ TYPE_TAGS))).map normTag := by
  intro hmem
  rcases List.mem_map.mp hmem with ⟨u, hu, he⟩
  rcases List.mem_filter.mp hu with ⟨_, hpu⟩
  rw [decide_eq_true_eq] at hpu
  exact hpu (he ▸ ht)

lemma computeTagDiff_desired_eq (cur : List String) (t : String) (ht : t ∈ TYPE_TAGS) :
    (computeTagDiff cur t).desiredTagsArr =
      (cur.filter (fun s => decide (¬ normTag s ∈ TYPE_TAGS))) ++ [t] := by
  unfold computeTagDiff
  rw [if_pos ht]
  simp only []
  rw [if_neg (cleaned_noType cur t ht)]

lemma computeTagDiff_add_eq (cur : List String) (t : String) (ht : t ∈ TYPE_TAGS) :
    (computeTagDiff cur t).tags_to_add = if t ∈ cur.map normTag then [] else [t] := by
  unfold computeTagDiff
  rw [if_pos ht]

lemma computeTagDiff_remove_eq (cur : List String) (t : String) (ht : t ∈ TYPE_TAGS) :
    (computeTagDiff cur t).tags_to_remove =
      TYPE_TAGS.filter (fun s => decide (¬ s = t ∧ s ∈ cur.map normTag)) := by
  unfold computeTagDiff
  rw [if_pos ht]

lemma computeTagDiff_doTags_eq (cur : List String) (t : String) (ht : t ∈ TYPE_TAGS) :
    (computeTagDiff cur t).doTags =
      decide (¬ (computeTagDiff cur t).tags_to_add = [] ∨
              ¬ (computeTagDiff cur t).tags_to_remove = []) := by
  rw [computeTagDiff_add_eq cur t ht, computeTagDiff_remove_eq cur t ht]
  unfold computeTagDiff
  rw [if_pos ht]

lemma computeTagDiff_skip (cur : List String) (u : String) (hu : ¬ u ∈ TYPE_TAGS) :
    computeTagDiff cur u = ⟨cur, [], [], false⟩ := by
  unfold computeTagDiff
  rw [if_neg hu]

/-- The reconciler signals no change when the desired type tag is already the
only type tag present (case-insensitively). Shared by the idempotence and
casing claims. -/
lemma computeTagDiff_noop (cur : List String) (t : String) (ht : t ∈ TYPE_TAGS)
    (hin : t ∈ cur.map normTag)
    (hothers : ∀ s, s ∈ TYPE_TAGS → ¬ s = t → ¬ s ∈ cur.map normTag) :
    (computeTagDiff cur t).tags_to_add = [] ∧
    (computeTagDiff cur t).tags_to_remove = [] ∧
    (computeTagDiff cur t).doTags = false := by
  have hadd : (computeTagDiff cur t).tags_to_add = [] := by
    rw [computeTagDiff_add_eq cur t ht, if_pos hin]
  have hrem : (computeTagDiff cur t).tags_to_remove = [] := by
    rw [computeTagDiff_remove_eq cur t ht, List.filter_eq_nil_iff]
    intro s hs
    simp only [decide_eq_true_eq, not_and]
    intro hne hmem
    exact hothers s hs hne hmem
  refine ⟨hadd, hrem, ?_⟩
  rw [computeTagDiff_doTags_eq cur t ht, hadd, hrem]
  decide

/-- Claim C3: for a desired regime among the three type tags, the reconciled
tag list contains exactly one type tag (compared case-insensitively),
non-type tags keep their relative order and casing, `tags_to_add` is the
desired tag exactly when it is not already present, `tags_to_remove` is every
other type tag present, and a change is signaled exactly when one of the two
lists is non-empty; any other desired regime (skip) passes the tags through
unchanged with no change signaled. -/
theorem tagReconciler_spec (cur : List String) (t : String) (ht : t ∈ TYPE_TAGS) :
    ((computeTagDiff cur t).desiredTagsArr.countP (fun s => decide (normTag s ∈ TYPE_TAGS)) = 1) ∧
    ((computeTagDiff cur t).desiredTagsArr.filter (fun s => decide (¬ normTag s ∈ TYPE_TAGS)) =
      cur.filter (fun s => decide (¬ normTag s ∈ TYPE_TAGS))) ∧
    ((computeTagDiff cur t).tags_to_add = if t ∈ cur.map normTag then [] else [t]) ∧
    ((computeTagDiff cur t).tags_to_remove =
      TYPE_TAGS.filter (fun s => decide (¬ s = t ∧ s ∈ cur.map normTag))) ∧
    ((computeTagDiff cur t).doTags =
      decide (¬ (computeTagDiff cur t).tags_to_add = [] ∨
              ¬ (computeTagDiff cur t).tags_to_remove = [])) ∧
    (∀ u, ¬ u ∈ TYPE_TAGS → computeTagDiff cur u = ⟨cur, [], [], false⟩) := by
  have hfix := normTag_type_fix t ht
  refine ⟨?_, ?_, computeTagDiff_add_eq cur t ht, computeTagDiff_remove_eq cur t ht,
    computeTagDiff_doTags_eq cur t ht, fun u hu => computeTagDiff_skip cur u hu⟩
  · rw [computeTagDiff_desired_eq cur t ht, List.countP_append]
    have h0 : (cur.filter (fun s => decide (¬ normTag s ∈ TYPE_TAGS))).countP
        (fun s => decide (normTag s ∈ TYPE_TAGS)) = 0 := by
      rw [List.countP_eq_zero]
      intro a ha
      rcases List.mem_filter.mp ha with ⟨_, hpa⟩
      rw [decide_eq_true_eq] at hpa
      simp only [decide_eq_true_eq]
      exact hpa
    rw [h0]
    simp only [List.countP_cons, List.countP_nil, decide_eq_true_eq]
    rw [hfix]
    simp [ht]
  · rw [computeTagDiff_desired_eq cur t ht, List.filter_append]
    have h1 : (cur.filter (fun s => decide (¬ normTag s ∈ TYPE_TAGS))).filter
        (fun s => decide (¬ normTag s ∈ TYPE_TAGS)) =
        cur.filter (fun s => decide (¬ normTag s ∈ TYPE_TAGS)) := by
      rw [List.filter_eq_self]
      intro a ha
      exact (List.mem_filter.mp ha).2
    have h2 : ([t].filter (fun s => decide (¬ normTag s ∈ TYPE_TAGS))) = [] := by
      rw [List.filter_eq_nil_iff]
      intro a ha
      rw [List.mem_singleton] at ha
      subst ha
      simp only [decide_eq_true_eq, not_not]
      rw [hfix]
      exact ht
    rw [h1, h2, List.append_nil]

/-- Witness for claim C3 on the spec scenario `["Sale", "standard"]` with
desired regime `low-margin`. -/
theorem tagReconciler_spec_witness :
    "low-margin" ∈ TYPE_TAGS ∧
    (computeTagDiff ["Sale", "standard"] "low-margin").desiredTagsArr.countP
      (fun s => decide (normTag s ∈ TYPE_TAGS)) = 1 :=
  ⟨by decide, (tagReconciler_spec ["Sale", "standard"] "low-margin" (by decide)).1⟩

/-- Claim C10: when the current tag list already contains the desired type tag
in any casing and no other type tag, the reconciler signals no change. -/
theorem tagCasing_noChange (cur : List String) (t : String) (ht : t ∈ TYPE_TAGS)
    (hin : (cur.map normTag).contains t = true)
    (hothers : (TYPE_TAGS.all (fun s => s == t || !((cur.map normTag).contains s))) = true) :
    (computeTagDiff cur t).tags_to_add = [] ∧
    (computeTagDiff cur t).tags_to_remove = [] ∧
    (computeTagDiff cur t).doTags = false := by
  apply computeTagDiff_noop cur t ht
  · simpa using hin
  · intro s hs hne hmem
    have h := List.all_eq_true.mp hothers s hs
    simp only [Bool.or_eq_true, beq_iff_eq, Bool.not_eq_true'] at h
    rcases h with h | h
    · exact hne h
    · rw [show ((cur.map normTag).contains s = false) ↔ ¬ s ∈ cur.map normTag by
        simp] at h
      exact h hmem

/-- Witness for claim C10: tags `["Standard"]` with desired regime `standard`
signal no change despite the casing difference. -/
theorem tagCasing_noChange_witness :
    "standard" ∈ TYPE_TAGS ∧
    ((["Standard"].map normTag).contains "standard" = true) ∧
    (computeTagDiff ["Standard"] "standard").doTags = false :=
  ⟨by decide, by decide,
    (tagCasing_noChange ["Standard"] "standard" (by decide) (by decide) (by decide)).2.2⟩

/-! ### Classifier claims -/

/-- Claim C9: the classifier returns `skip` exactly when `M` or `C` is not
strictly positive; with both positive it returns `used` exactly when a
gateway marker (`preloved` or `preowned / defect`, compared after
lowercasing and trimming) is present, and otherwise `standard` exactly when
the projected worst-case margin `G` is nonnegative and `low-margin` exactly
when it is negative. -/
theorem classifier_spec (M C : ℚ) (tags : List String) :
    (determineTypeArigato M C tags = "skip" ↔ ¬ (0 < M ∧ 0 < C)) ∧
    (hasUsedGateway tags = true ↔
      ∃ t, t ∈ tags ∧ (normTag t = "preloved" ∨ normTag t = "preowned / defect")) ∧
    (0 < M → 0 < C →
      ((determineTypeArigato M C tags = "used" ↔ hasUsedGateway tags = true) ∧
       (hasUsedGateway tags = false →
         ((determineTypeArigato M C tags = "standard" ↔ 0 ≤ marginG M C) ∧
          (determineTypeArigato M C tags = "low-margin" ↔ marginG M C < 0))))) := by
  refine ⟨?_, ?_, fun hM hC => ⟨?_, fun hg => ⟨?_, ?_⟩⟩⟩
  · unfold determineTypeArigato
    by_cases h0 : ¬ 0 < M ∨ ¬ 0 < C
    · rw [if_pos h0]
      constructor
      · intro _; tauto
      · intro _; rfl
    · rw [if_neg h0]
      push_neg at h0
      constructor
      · intro h
        by_cases hg : hasUsedGateway tags = true
        · rw [if_pos hg] at h; exact absurd h (by decide)
        · rw [if_neg hg] at h
          by_cases hm : 0 ≤ marginG M C
          · rw [if_pos hm] at h; exact absurd h (by decide)
          · rw [if_neg hm] at h; exact absurd h (by decide)
      · intro h; exact absurd ⟨h0.1, h0.2⟩ h
  · unfold hasUsedGateway
    simp only [decide_eq_true_eq, List.mem_map]
    constructor
    · rintro (⟨t, htm, he⟩ | ⟨t, htm, he⟩)
      · exact ⟨t, htm, Or.inr he⟩
      · exact ⟨t, htm, Or.inl he⟩
    · rintro ⟨t, htm, he | he⟩
      · exact Or.inr ⟨t, htm, he⟩
      · exact Or.inl ⟨t, htm, he⟩
  · unfold determineTypeArigato
    rw [if_neg (by push_neg; exact ⟨hM, hC⟩)]
    by_cases hg : hasUsedGateway tags = true
    · rw [if_pos hg]
      simp [hg]
    · rw [if_neg hg]
      constructor
      · intro h
        by_cases hm : 0 ≤ marginG M C
        · rw [if_pos hm] at h; exact absurd h (by decide)
        · rw [if_neg hm] at h; exact absurd h (by decide)
      · intro h; exact absurd h hg
  · unfold determineTypeArigato
    rw [if_neg (by push_neg; exact ⟨hM, hC⟩), if_neg (by simp [hg])]
    by_cases hm : 0 ≤ marginG M C
    · rw [if_pos hm]; simp [hm]
    · rw [if_neg hm]
      constructor
      · intro h; exact absurd h (by decide)
      · intro h; exact absurd h hm
  · unfold determineTypeArigato
    rw [if_neg (by push_neg; exact ⟨hM, hC⟩), if_neg (by simp [hg])]
    by_cases hm : 0 ≤ marginG M C
    · rw [if_pos hm]
      constructor
      · intro h; exact absurd h (by decide)
      · intro h; exact absurd hm (not_le.mpr h)
    · rw [if_neg hm]
      rw [not_le] at hm
      simp [hm]

/-- Witness for claim C9 at `M = C = 1` with no tags. -/
theorem classifier_spec_witness :
    (0 : ℚ) < 1 ∧
    (determineTypeArigato 1 1 [] = "used" ↔ hasUsedGateway [] = true) :=
  ⟨by norm_num, ((classifier_spec 1 1 []).2.2 (by norm_num) (by norm_num)).1⟩

/-- Claim C4: for fixed cost and tags without gateway markers, the projected
worst-case margin is non-decreasing in the reference price, so raising `M`
never moves a `standard` classification to `low-margin`. -/
theorem margin_monotone (C : ℚ) (tags : List String) (M1 M2 : ℚ) (hC : 0 < C)
    (hg : hasUsedGateway tags = false) (hM1 : 0 < M1) (h12 : M1 ≤ M2) :
    marginG M1 C ≤ marginG M2 C ∧
    (determineTypeArigato M1 C tags = "standard" →
      ¬ determineTypeArigato M2 C tags = "low-margin") := by
  have hmono : marginG M1 C ≤ marginG M2 C := by
    unfold marginG
    nlinarith
  refine ⟨hmono, fun h1 => ?_⟩
  have hM2 : 0 < M2 := lt_of_lt_of_le hM1 h12
  unfold determineTypeArigato at h1 ⊢
  rw [if_neg (by push_neg; exact ⟨hM1, hC⟩), if_neg (by simp [hg])] at h1
  rw [if_neg (by push_neg; exact ⟨hM2, hC⟩), if_neg (by simp [hg])]
  have hG1 : 0 ≤ marginG M1 C := by
    by_contra hn
    rw [if_neg hn] at h1
    exact absurd h1 (by decide)
  rw [if_pos (le_trans hG1 hmono)]
  decide

/-- Witness for claim C4 at `C = 1`, `M1 = 100`, `M2 = 200`, no tags. -/
theorem margin_monotone_witness :
    (0 : ℚ) < 1 ∧ hasUsedGateway [] = false ∧ (0 : ℚ) < 100 ∧ (100 : ℚ) ≤ 200 ∧
    marginG 100 1 ≤ marginG 200 1 :=
  ⟨by norm_num, by decide, by norm_num, by norm_num,
    (margin_monotone 1 [] 100 200 (by norm_num) (by decide) (by norm_num) (by norm_num)).1⟩

/-! ### Variant position sentinel (claim C7) -/

lemma parseUnsignedDec_one : parseUnsignedDec ['1'] = some 1 := by
  simp only [parseUnsignedDec]
  rw [show List.takeWhile Char.isDigit ['1'] = ['1'] from by decide,
    show List.dropWhile Char.isDigit ['1'] = ([] : List Char) from by decide]
  show (if (['1'] : List Char) = [] then none
    else (parseExpPart []).map (applyExp ((digitsToNat ['1'] : ℕ) : ℚ))) = some 1
  rw [if_neg (by decide)]
  show some (applyExp ((digitsToNat ['1'] : ℕ) : ℚ) (false, 0)) = some 1
  rw [show digitsToNat ['1'] = 1 from by decide]
  norm_num [applyExp]

lemma toNumberOrNull_one : toNumberOrNull "1" = some 1 := by
  have h0 : String.mk (replaceFirstComma "1".data) = "1" := by decide
  unfold toNumberOrNull
  rw [h0]
  simp only [jsNumber]
  rw [show trimChars "1".data = ['1'] from by decide]
  rw [if_neg (by decide)]
  show parseUnsignedDec ['1'] = some 1
  exact parseUnsignedDec_one

/-- Claim C7 (counterexample): an absent (empty) variant-position cell does
not get the sentinel 999999: JS `Number("")` is 0, so it parses to position
0, and such a variant is selected as base in preference to a variant whose
position cell parses to 1. -/
theorem positionSentinel_cex :
    parseVariantPos "" = 0 ∧ ¬ parseVariantPos "" = 999999 ∧
    toNumberOrNull "1" = some 1 ∧
    baseVariant [vEmptyPos, vOne] = some vEmptyPos := by
  have h1 : vOne.pos = 1 := by
    show parseVariantPos "1" = 1
    unfold parseVariantPos
    rw [toNumberOrNull_one]
    rfl
  have h2 : vEmptyPos.pos = 0 := by decide
  refine ⟨by decide, by decide, toNumberOrNull_one, ?_⟩
  unfold baseVariant
  rw [List.foldl_cons, List.foldl_cons, List.foldl_nil]
  show (if vOne.pos < vEmptyPos.pos then some vOne else some vEmptyPos) = some vEmptyPos
  rw [if_neg]
  rw [h1, h2]
  norm_num

/-- Claim C7 (amended): a variant-position cell that `toNumberOrNull` cannot
parse (it returns `null`) is treated as the sentinel 999999; the selected
base variant always has the minimal position, so a sentinel-position variant
is never selected as base when any variant has a parseable position below
the sentinel. (An absent/empty cell, however, parses as 0 and sorts first.) -/
theorem positionSentinel_amended :
    (∀ s, toNumberOrNull s = none → parseVariantPos s = 999999) ∧
    (∀ vs b, baseVariant vs = some b → ∀ v, v ∈ vs → b.pos ≤ v.pos) ∧
    (∀ vs b v, baseVariant vs = some b → v ∈ vs → v.pos < 999999 → b.pos < 999999) := by
  have hmin : ∀ (vs : List Variant) (acc : Option Variant) (b : Variant),
      vs.foldl
        (fun best v =>
          match best with
          | none => some v
          | some b0 => if v.pos < b0.pos then some v else some b0)
        acc = some b →
      (∀ a, acc = some a → b.pos ≤ a.pos) ∧ ∀ v, v ∈ vs → b.pos ≤ v.pos := by
    intro vs
    induction vs with
    | nil =>
      intro acc b h
      simp only [List.foldl_nil] at h
      refine ⟨fun a ha => ?_, fun v hv => absurd hv (List.not_mem_nil v)⟩
      rw [h] at ha
      rw [Option.some_inj.mp ha]
    | cons v0 rest ih =>
      intro acc b h
      rw [List.foldl_cons] at h
      obtain ⟨hacc, hrest⟩ := ih _ b h
      have hkey : b.pos ≤ v0.pos ∧ ∀ a, acc = some a → b.pos ≤ a.pos := by
        cases acc with
        | none =>
          refine ⟨hacc v0 rfl, fun a ha => Option.noConfusion ha⟩
        | some a0 =>
          by_cases hlt : v0.pos < a0.pos
          · have hstep : b.pos ≤ v0.pos := by
              apply hacc v0
              show (if v0.pos < a0.pos then some v0 else some a0) = some v0
              rw [if_pos hlt]
            refine ⟨hstep, fun a ha => ?_⟩
            injection ha with haa
            rw [← haa]
            exact le_trans hstep (le_of_lt hlt)
          · have hstep : b.pos ≤ a0.pos := by
              apply hacc a0
              show (if v0.pos < a0.pos then some v0 else some a0) = some a0
              rw [if_neg hlt]
            refine ⟨le_trans hstep (le_of_not_lt hlt), fun a ha => ?_⟩
            injection ha with haa
            rw [← haa]
            exact hstep
      refine ⟨hkey.2, fun v hv => ?_⟩
      rcases List.mem_cons.mp hv with hv | hv
      · rw [hv]; exact hkey.1
      · exact hrest v hv
  refine ⟨fun s hs => ?_, fun vs b h v hv => ?_, fun vs b v h hv hlt => ?_⟩
  · unfold parseVariantPos
    rw [hs]
    rfl
  · exact (hmin vs none b h).2 v hv
  · exact lt_of_le_of_lt ((hmin vs none b h).2 v hv) hlt

/-- Witness for the amended claim C7: the unparseable cell `"abc"` gets the
sentinel, and a singleton list selects its variant as base with minimal
position. -/
theorem positionSentinel_amended_witness :
    toNumberOrNull "abc" = none ∧ parseVariantPos "abc" = 999999 ∧
    baseVariant [vOne] = some vOne ∧ vOne.pos ≤ vOne.pos :=
  ⟨by decide, positionSentinel_amended.1 "abc" (by decide), rfl,
    positionSentinel_amended.2.1 [vOne] vOne rfl vOne (List.mem_singleton.mpr rfl)⟩

/-! ### Test-subset selection (claim C8) -/

/-- Claim C8 (counterexample): the test-subset selection does not backfill
from the changed pool: with 9 changed `standard` products it picks only the
quota of 8, not `min(20, 9) = 9`. -/
theorem testSelection_cex :
    itemsNine.length = 9 ∧ (pickTest20 itemsNine).length = 8 ∧
    ¬ (pickTest20 itemsNine).length = min 20 itemsNine.length := by
  refine ⟨by decide, by decide, by decide⟩

/-- Claim C8 (amended): the selection takes fixed quotas per regime — 8
standard, 6 low-margin, 6 used, in that priority order — from the changed
products and truncates to the target 20; there is no backfill, so the
selected size is `min(20, min(#standard,8) + min(#low-margin,6) +
min(#used,6))`, never exceeds 20, and every selected product comes from the
changed pool. -/
theorem testSelection_amended (items : List ChangeItem) :
    (pickTest20 items).length =
      min 20 (min 8 (items.filter (fun x => x.type == "standard")).length +
              min 6 (items.filter (fun x => x.type == "low-margin")).length +
              min 6 (items.filter (fun x => x.type == "used")).length) ∧
    (pickTest20 items).length ≤ 20 ∧
    (pickTest20 items).all (fun x => decide (x ∈ items)) = true := by
  refine ⟨?_, ?_, ?_⟩
  · unfold pickTest20
    rw [List.length_take, List.length_append, List.length_append,
      List.length_take, List.length_take, List.length_take]
  · unfold pickTest20
    exact List.length_take_le _ _
  · rw [List.all_eq_true]
    intro x hx
    rw [decide_eq_true_eq]
    unfold pickTest20 at hx
    have hx2 := List.mem_of_mem_take hx
    rcases List.mem_append.mp hx2 with hx3 | hx3
    · rcases List.mem_append.mp hx3 with hx4 | hx4
      · exact (List.mem_filter.mp (List.mem_of_mem_take hx4)).1
      · exact (List.mem_filter.mp (List.mem_of_mem_take hx4)).1
    · exact (List.mem_filter.mp (List.mem_of_mem_take hx3)).1

/-! ### Emission-row lemmas (claims C5 and C6) -/

lemma approxEqualMoney_refl (x : ℚ) : approxEqualMoney (some x) (some x) = true := by
  unfold approxEqualMoney
  apply decide_eq_true
  simp only [Option.getD_some]
  rw [sub_self, abs_zero]
  norm_num

lemma productVariantsToUpdate_of_none (p : Product) (h : productPriceNew p = none) :
    productVariantsToUpdate p = [] := by
  unfold productVariantsToUpdate
  by_cases hm : productMissingMC p = true
  · rw [if_pos hm]
  · rw [if_neg hm, h]

lemma productDoPrice_some (p : Product) (h : productDoPrice p = true) :
    ∃ pn, productPriceNew p = some pn := by
  cases hpn : productPriceNew p with
  | some pn => exact ⟨pn, rfl⟩
  | none =>
    unfold productDoPrice at h
    rw [productVariantsToUpdate_of_none p hpn] at h
    exact absurd h (by decide)

lemma primaryHas_parts (p : Product) (h : productPrimaryHasPriceUpdate p = true) :
    productDoPrice p = true ∧ ¬ productPrimaryVariantId p = "" ∧
    (productVariantsToUpdate p).contains (productPrimaryVariantId p) = true := by
  unfold productPrimaryHasPriceUpdate at h
  rw [Bool.and_eq_true, Bool.and_eq_true] at h
  exact ⟨h.1.1, of_decide_eq_true h.1.2, h.2⟩

lemma fullDoPrice_some (p : Product) (h : productFullDoPrice p = true) :
    (productPriceNew p).isSome = true := by
  unfold productFullDoPrice at h
  rw [Bool.and_eq_true] at h
  exact h.2

lemma productOnlyPrimary_price (p : Product) (h : ¬ (productOnlyPrimary p).variantId = "") :
    (productOnlyPrimary p).variantPrice.isSome = true := by
  by_cases hf : productPrimaryHasPriceUpdate p = true
  · show (if productPrimaryHasPriceUpdate p then productPriceNew p else none).isSome = true
    rw [if_pos hf]
    obtain ⟨pn, hpn⟩ := productDoPrice_some p (primaryHas_parts p hf).1
    rw [hpn]
    rfl
  · exfalso
    apply h
    show (if productPrimaryHasPriceUpdate p then productPrimaryVariantId p else "") = ""
    rw [if_neg hf]

lemma productFullPrimary_price (p : Product) (h : ¬ (productFullPrimary p).variantId = "") :
    (productFullPrimary p).variantPrice.isSome = true := by
  by_cases hf : productFullPrimaryHas p = true
  · show (if productFullPrimaryHas p then productPriceNew p else none).isSome = true
    rw [if_pos hf]
    apply fullDoPrice_some
    unfold productFullPrimaryHas at hf
    rw [Bool.and_eq_true] at hf
    exact hf.1
  · exfalso
    apply h
    show (if productFullPrimaryHas p then productPrimaryVariantId p else "") = ""
    rw [if_neg hf]

lemma productOnlySecondaries_fields (p : Product) :
    ∀ r ∈ productOnlySecondaries p,
      r.variantPrice = productPriceNew p ∧ (productPriceNew p).isSome = true ∧
      r.tags = "" ∧ r.tagsCommand = "" ∧ r.status = "" ∧ ¬ r.variantId = "" ∧
      r.metafield = productMfCellOut p := by
  intro r hr
  unfold productOnlySecondaries at hr
  by_cases hdp : productDoPrice p = true
  · rw [if_pos hdp] at hr
    rcases List.mem_map.mp hr with ⟨vid, hvid, hre⟩
    rcases List.mem_filter.mp hvid with ⟨_, hvpred⟩
    rw [Bool.and_eq_true, Bool.not_eq_true', beq_eq_false_iff_ne] at hvpred
    obtain ⟨pn, hpn⟩ := productDoPrice_some p hdp
    rw [← hre]
    exact ⟨rfl, by rw [hpn]; rfl, rfl, rfl, rfl, hvpred.1, rfl⟩
  · rw [if_neg hdp] at hr
    exact absurd hr (List.not_mem_nil r)

lemma productFullSecondaries_fields (p : Product) :
    ∀ r ∈ productFullSecondaries p,
      r.variantPrice = productPriceNew p ∧ (productPriceNew p).isSome = true ∧
      ¬ r.variantId = "" := by
  intro r hr
  unfold productFullSecondaries at hr
  by_cases hdp : productFullDoPrice p = true
  · rw [if_pos hdp] at hr
    rcases List.mem_map.mp hr with ⟨v, hv, hre⟩
    rcases List.mem_filter.mp hv with ⟨_, hvpred⟩
    rw [Bool.and_eq_true, Bool.not_eq_true', beq_eq_false_iff_ne] at hvpred
    rw [← hre]
    exact ⟨rfl, fullDoPrice_some p hdp, hvpred.1⟩
  · rw [if_neg hdp] at hr
    exact absurd hr (List.not_mem_nil r)

lemma productOnlyRows_cases (p : Product) :
    productOnlyRows p = Except.ok [] ∨
    productOnlyRows p = Except.ok (productOnlyPrimary p :: productOnlySecondaries p) := by
  unfold productOnlyRows
  by_cases hn : productNeedsChange p = true
  · right
    rw [if_neg (by simp [hn])]
    rw [if_neg ?_]
    rintro ⟨hid, hnone⟩
    have h := productOnlyPrimary_price p hid
    rw [hnone] at h
    exact absurd h (by decide)
  · left
    rw [Bool.not_eq_true] at hn
    rw [if_pos (by rw [hn]; rfl)]

lemma productFullRows_eq (p : Product) :
    productFullRows p = Except.ok (productFullPrimary p :: productFullSecondaries p) := by
  unfold productFullRows
  rw [if_neg ?_]
  rintro ⟨hid, hnone⟩
  have h := productFullPrimary_price p hid
  rw [hnone] at h
  exact absurd h (by decide)

/-- Claim C5: for every product, both the only-changes and the full import
emissions succeed (the two fail-fast throw branches are unreachable), and
every emitted row that names a variant also carries a non-empty variant
price. -/
theorem variantRows_priced (p : Product) :
    exceptIsOk (engineOnlyRows p) = true ∧ exceptIsOk (engineFullRows p) = true ∧
    (okRows (engineOnlyRows p)).all (fun r => r.variantId == "" || r.variantPrice.isSome) = true ∧
    (okRows (engineFullRows p)).all (fun r => r.variantId == "" || r.variantPrice.isSome) = true := by
  by_cases hcn : hasCnfdnt p.tagsArr = true
  · unfold engineOnlyRows engineFullRows
    rw [if_pos hcn, if_pos hcn]
    exact ⟨rfl, rfl, rfl, rfl⟩
  · unfold engineOnlyRows engineFullRows
    rw [if_neg hcn, if_neg hcn]
    have hprim : ∀ r : ImportRow, (¬ r.variantId = "" → r.variantPrice.isSome = true) →
        (r.variantId == "" || r.variantPrice.isSome) = true := by
      intro r hr
      by_cases hid : r.variantId = ""
      · rw [Bool.or_eq_true, beq_iff_eq]
        exact Or.inl hid
      · rw [Bool.or_eq_true]
        exact Or.inr (hr hid)
    have honlyConsAll : (productOnlyPrimary p :: productOnlySecondaries p).all
        (fun r => r.variantId == "" || r.variantPrice.isSome) = true := by
      rw [List.all_cons, Bool.and_eq_true]
      constructor
      · exact hprim _ (productOnlyPrimary_price p)
      · rw [List.all_eq_true]
        intro r hr
        obtain ⟨hpr, hsome, _, _, _, hvid, _⟩ := productOnlySecondaries_fields p r hr
        apply hprim
        intro _
        rw [hpr]
        exact hsome
    have hfullAll : (productFullPrimary p :: productFullSecondaries p).all
        (fun r => r.variantId == "" || r.variantPrice.isSome) = true := by
      rw [List.all_cons, Bool.and_eq_true]
      constructor
      · exact hprim _ (productFullPrimary_price p)
      · rw [List.all_eq_true]
        intro r hr
        obtain ⟨hpr, hsome, hvid⟩ := productFullSecondaries_fields p r hr
        apply hprim
        intro _
        rw [hpr]
        exact hsome
    rcases productOnlyRows_cases p with h | h <;> rw [h, productFullRows_eq p]
    · exact ⟨rfl, rfl, rfl, hfullAll⟩
    · exact ⟨rfl, rfl, honlyConsAll, hfullAll⟩

/-- Claim C6 (amended): each only-changes row after the primary one carries
only that variant's id and the new price — its Tags, Tags Command and Status
cells are empty — but the advertised-from metafield cell is not empty: it
repeats the product's stable metafield cell (the same value the primary row
carries). -/
theorem secondaryRows_amended (p : Product) :
    ((okRows (engineOnlyRows p)).tail).all
      (fun r => r.tags == "" && r.tagsCommand == "" && r.status == "" &&
        !(r.variantId == "") && r.variantPrice.isSome &&
        r.variantPrice == productPriceNew p && r.metafield == productMfCellOut p) = true := by
  by_cases hcn : hasCnfdnt p.tagsArr = true
  · unfold engineOnlyRows
    rw [if_pos hcn]
    rfl
  · unfold engineOnlyRows
    rw [if_neg hcn]
    rcases productOnlyRows_cases p with h | h <;> rw [h]
    · rfl
    · rw [show okRows (Except.ok (productOnlyPrimary p :: productOnlySecondaries p)) =
        productOnlyPrimary p :: productOnlySecondaries p from rfl, List.tail_cons]
      rw [List.all_eq_true]
      intro r hr
      obtain ⟨hpr, hsome, htags, htc, hst, hvid, hmf⟩ := productOnlySecondaries_fields p r hr
      rw [htags, htc, hst, hmf, hpr]
      simp only [beq_self_eq_true, Bool.true_and, Bool.and_true]
      rw [hsome]
      simp [hvid]

lemma costPlusRaw_used_eq (M C : ℚ) :
    costPlusRaw M C usedParams =
      (C : ℝ) * (1 + 0.25 + 1.20 * Real.logb 10 ((M : ℝ) / (C : ℝ)) +
        0.20 * sigmoidM M usedParams) + 35.00 := rfl

/-- Claim C6 (counterexample): a used-regime product with a current
advertised-from value `"5"` and two variants needing a price update emits a
secondary row whose metafield cell is `"5"`, not empty. -/
theorem secondaryRows_cex :
    (okRows (engineOnlyRows exampleC6)).length = 2 ∧
    ((okRows (engineOnlyRows exampleC6)).getD 1 emptyRow).variantId = "2" ∧
    ¬ ((okRows (engineOnlyRows exampleC6)).getD 1 emptyRow).metafield = MfCell.raw "" := by
  have hMiss : productMissingMC exampleC6 = false := by decide
  have hType : productDesiredType exampleC6 = "used" := by decide
  have hM : productMrefPrice exampleC6 = 1000 := by decide
  have hC : productCost exampleC6 = 300 := by decide
  have hTd : productTagDiff exampleC6 = ⟨["preloved", "used"], ["used"], [], true⟩ := by decide
  have hPricing : productPricing exampleC6 = computePricing 1000 300 "used" := by
    unfold productPricing
    rw [hMiss, hType, hM, hC]
    rw [if_pos (by decide)]
  set pn : ℚ := round2q (min ((1000 : ℚ) : ℝ) (costPlusRaw 1000 300 usedParams)) with hpndef
  have hcp : computePricing 1000 300 "used" = some ⟨pn, round2q 0⟩ :=
    computePricing_used 1000 300 (by norm_num) (by norm_num)
  have hpval : productPricing exampleC6 = some ⟨pn, round2q 0⟩ := by rw [hPricing, hcp]
  have hpneq : productPriceNew exampleC6 = some pn := by
    unfold productPriceNew
    rw [hpval]
    rfl
  have hpn400 : (400 : ℚ) ≤ pn := by
    have hsig : 0 ≤ sigmoidM 1000 usedParams := by
      unfold sigmoidM
      positivity
    have hlog : 0 ≤ Real.logb 10 (((1000 : ℚ) : ℝ) / ((300 : ℚ) : ℝ)) :=
      Real.logb_nonneg (by norm_num) (by push_cast; norm_num)
    have hraw : (410 : ℝ) ≤ costPlusRaw 1000 300 usedParams := by
      rw [costPlusRaw_used_eq]
      have e3 : ((300 : ℚ) : ℝ) = 300 := by norm_num
      rw [e3] at hlog ⊢
      nlinarith [hlog, hsig]
    have hminge : ((410 : ℚ) : ℝ) ≤ min ((1000 : ℚ) : ℝ) (costPlusRaw 1000 300 usedParams) := by
      apply le_min
      · push_cast
        norm_num
      · have e4 : ((410 : ℚ) : ℝ) = 410 := by norm_num
        rw [e4]
        exact hraw
    have hlt := lt_round2q _ 410 hminge
    rw [← hpndef] at hlt
    linarith
  have happrox : approxEqualMoney none (some pn) = false := by
    unfold approxEqualMoney
    apply decide_eq_false
    simp only [Option.getD_none, Option.getD_some]
    rw [zero_sub, abs_neg, abs_of_nonneg (by linarith : (0 : ℚ) ≤ pn)]
    intro hlt
    have h5 : (0.005 : ℚ) ≤ 400 := by norm_num
    linarith
  have hVtu : productVariantsToUpdate exampleC6 = ["1", "2"] := by
    unfold productVariantsToUpdate
    rw [hMiss, hpneq]
    rw [if_neg (by decide)]
    show (exampleC6.variants.filter
      (fun v => !(v.variantId == "") && !(approxEqualMoney v.price (some pn)))).map
        Variant.variantId = ["1", "2"]
    rw [show exampleC6.variants =
      [⟨"1", 1, none, some 1000, some 300⟩, ⟨"2", 2, none, some 1000, some 300⟩] from rfl]
    rw [List.filter_cons, List.filter_cons, List.filter_nil]
    simp only [happrox]
    simp
  have hDoPrice : productDoPrice exampleC6 = true := by
    unfold productDoPrice
    rw [hVtu]
    rfl
  have hNeeds : productNeedsChange exampleC6 = true := by
    unfold productNeedsChange
    rw [hTd, hDoPrice]
    simp
  have hAsLow : productAsLowAsNew exampleC6 = none := by
    unfold productAsLowAsNew
    rw [hpval]
    show (if productDesiredType exampleC6 = "standard" ∧
        0 < (⟨pn, round2q 0⟩ : PricePair).as_low_as then
      some (⟨pn, round2q 0⟩ : PricePair).as_low_as else none) = none
    rw [hType]
    rw [if_neg (by rintro ⟨hh, _⟩; exact absurd hh (by decide))]
  have hMf : productMfCellOut exampleC6 = MfCell.raw "5" := by
    unfold productMfCellOut
    rw [hAsLow]
    decide
  have hPrimary : productPrimaryVariantId exampleC6 = "1" := by decide
  have hPrimHas : productPrimaryHasPriceUpdate exampleC6 = true := by
    unfold productPrimaryHasPriceUpdate
    rw [hDoPrice, hPrimary, hVtu]
    decide
  have hSec : productOnlySecondaries exampleC6 =
      [mkSecondaryRow "p1" (some pn) (MfCell.raw "5") "2"] := by
    unfold productOnlySecondaries
    rw [hDoPrice, hVtu, hPrimary, hpneq, hMf]
    rw [if_pos rfl]
    rw [show (["1", "2"].filter (fun vid => !(vid == "") && !(vid == "1"))) = ["2"] from by decide]
    rfl
  have hvp : (productOnlyPrimary exampleC6).variantPrice = some pn := by
    show (if productPrimaryHasPriceUpdate exampleC6 then productPriceNew exampleC6 else none) =
      some pn
    rw [hPrimHas]
    rw [if_pos rfl]
    exact hpneq
  have hRows : productOnlyRows exampleC6 =
      Except.ok (productOnlyPrimary exampleC6 ::
        [mkSecondaryRow "p1" (some pn) (MfCell.raw "5") "2"]) := by
    unfold productOnlyRows
    rw [hNeeds]
    rw [if_neg (by decide)]
    rw [if_neg ?_, hSec]
    rintro ⟨_, hnone⟩
    rw [hvp] at hnone
    exact Option.noConfusion hnone
  have hEngine : engineOnlyRows exampleC6 = productOnlyRows exampleC6 := by
    unfold engineOnlyRows
    rw [if_neg (by decide)]
  refine ⟨?_, ?_, ?_⟩ <;> rw [hEngine, hRows]
  · rfl
  · rfl
  · decide

/-! ### Idempotence (claim C2) -/

lemma applyRun_status (p : Product) (hc : ¬ hasCnfdnt p.tagsArr = true) :
    (applyRun p).status = (if productDoDraft p then "Draft" else p.status) := by
  unfold applyRun
  rw [if_neg hc]

lemma applyRun_tags (p : Product) (hc : ¬ hasCnfdnt p.tagsArr = true) :
    (applyRun p).tagsArr =
      (if (productTagDiff p).doTags then (productTagDiff p).desiredTagsArr else p.tagsArr) := by
  unfold applyRun
  rw [if_neg hc]

lemma applyRun_mfcell (p : Product) (hc : ¬ hasCnfdnt p.tagsArr = true) :
    (applyRun p).asLowAsCurrent =
      (if productDoMetafield p then
        (match productAsLowAsNew p with
          | some al => MfCell.numv al
          | none => p.asLowAsCurrent)
      else p.asLowAsCurrent) := by
  unfold applyRun
  rw [if_neg hc]

lemma applyRun_variants (p : Product) (hc : ¬ hasCnfdnt p.tagsArr = true) :
    (applyRun p).variants =
      p.variants.map
        (fun v =>
          if (productVariantsToUpdate p).contains v.variantId then
            { v with price := productPriceNew p }
          else v) := by
  unfold applyRun
  rw [if_neg hc]

lemma applyVariant_fields (upd : Option ℚ) (l : List String) (v : Variant) :
    ((if l.contains v.variantId then { v with price := upd } else v).pos = v.pos) ∧
    ((if l.contains v.variantId then { v with price := upd } else v).compareAt = v.compareAt) ∧
    ((if l.contains v.variantId then { v with price := upd } else v).cost = v.cost) ∧
    ((if l.contains v.variantId then { v with price := upd } else v).variantId = v.variantId) := by
  by_cases h : l.contains v.variantId = true
  · refine ⟨?_, ?_, ?_, ?_⟩ <;> rw [if_pos h]
  · refine ⟨?_, ?_, ?_, ?_⟩ <;> rw [if_neg h]

lemma baseVariant_map_aux (g : Variant → Variant) (hpos : ∀ v, (g v).pos = v.pos) :
    ∀ (l : List Variant) (acc : Option Variant),
      (l.map g).foldl
        (fun best v =>
          match best with
          | none => some v
          | some b0 => if v.pos < b0.pos then some v else some b0)
        (Option.map g acc) =
      Option.map g
        (l.foldl
          (fun best v =>
            match best with
            | none => some v
            | some b0 => if v.pos < b0.pos then some v else some b0)
          acc) := by
  intro l
  induction l with
  | nil => intro acc; simp
  | cons v rest ih =>
    intro acc
    rw [List.map_cons, List.foldl_cons, List.foldl_cons]
    have hstep : (match Option.map g acc with
        | none => some (g v)
        | some b0 => if (g v).pos < b0.pos then some (g v) else some b0) =
        Option.map g
          (match acc with
            | none => some v
            | some b0 => if v.pos < b0.pos then some v else some b0) := by
      cases acc with
      | none => rfl
      | some b =>
        show (if (g v).pos < (g b).pos then some (g v) else some (g b)) =
          Option.map g (if v.pos < b.pos then some v else some b)
        rw [hpos v, hpos b]
        by_cases hlt : v.pos < b.pos
        · rw [if_pos hlt, if_pos hlt]
          rfl
        · rw [if_neg hlt, if_neg hlt]
          rfl
    rw [hstep]
    exact ih _

lemma baseVariant_map (g : Variant → Variant) (hpos : ∀ v, (g v).pos = v.pos)
    (l : List Variant) : baseVariant (l.map g) = Option.map g (baseVariant l) := by
  unfold baseVariant
  have h := baseVariant_map_aux g hpos l none
  simpa using h

lemma applyRun_base (p : Product) (hc : ¬ hasCnfdnt p.tagsArr = true) :
    productBase (applyRun p) =
      Option.map
        (fun v =>
          if (productVariantsToUpdate p).contains v.variantId then
            { v with price := productPriceNew p }
          else v)
        (productBase p) := by
  unfold productBase
  rw [applyRun_variants p hc]
  exact baseVariant_map _ (fun v => (applyVariant_fields _ _ v).1) _

lemma applyRun_msrp (p : Product) (hc : ¬ hasCnfdnt p.tagsArr = true) :
    productMsrpGross (applyRun p) = productMsrpGross p := by
  unfold productMsrpGross
  rw [applyRun_base p hc]
  cases hb : productBase p with
  | none => rfl
  | some b =>
    simp only [Option.map_some', Option.some_bind]
    rw [(applyVariant_fields (productPriceNew p) (productVariantsToUpdate p) b).2.1]

lemma applyRun_cost (p : Product) (hc : ¬ hasCnfdnt p.tagsArr = true) :
    productCost (applyRun p) = productCost p := by
  unfold productCost
  rw [applyRun_base p hc]
  cases hb : productBase p with
  | none => rfl
  | some b =>
    simp only [Option.map_some', Option.some_bind]
    rw [(applyVariant_fields (productPriceNew p) (productVariantsToUpdate p) b).2.2.1]

lemma applyRun_mref (p : Product) (hc : ¬ hasCnfdnt p.tagsArr = true) :
    productMrefPrice (applyRun p) = productMrefPrice p := by
  unfold productMrefPrice
  rw [applyRun_msrp p hc]

lemma applyRun_missing (p : Product) (hc : ¬ hasCnfdnt p.tagsArr = true) :
    productMissingMC (applyRun p) = productMissingMC p := by
  unfold productMissingMC
  rw [applyRun_mref p hc, applyRun_cost p hc]

lemma mem_norm_desired (cur : List String) (t x : String) (ht : t ∈ TYPE_TAGS)
    (hx : ¬ x ∈ TYPE_TAGS) :
    (x ∈ (computeTagDiff cur t).desiredTagsArr.map normTag) ↔ (x ∈ cur.map normTag) := by
  rw [computeTagDiff_desired_eq cur t ht, List.map_append, List.mem_append]
  constructor
  · rintro (h | h)
    · rcases List.mem_map.mp h with ⟨u, hu, he⟩
      exact List.mem_map.mpr ⟨u, (List.mem_filter.mp hu).1, he⟩
    · exfalso
      simp only [List.map_cons, List.map_nil, List.mem_singleton] at h
      rw [normTag_type_fix t ht] at h
      apply hx
      rw [h]
      exact ht
  · intro h
    rcases List.mem_map.mp h with ⟨u, hu, he⟩
    left
    refine List.mem_map.mpr ⟨u, List.mem_filter.mpr ⟨hu, ?_⟩, he⟩
    rw [decide_eq_true_eq, he]
    exact hx

lemma productTagDiff_guard_of_doTags (p : Product) (hdt : (productTagDiff p).doTags = true) :
    (!productMissingMC p && decide (productDesiredType p ∈ TYPE_TAGS)) = true := by
  by_contra hng
  unfold productTagDiff at hdt
  rw [if_neg hng] at hdt
  simp at hdt

lemma applyRun_tags_mem (p : Product) (x : String) (hx : ¬ x ∈ TYPE_TAGS) :
    (x ∈ (applyRun p).tagsArr.map normTag) ↔ (x ∈ p.tagsArr.map normTag) := by
  by_cases hc : hasCnfdnt p.tagsArr = true
  · have happ : applyRun p = p := by
      unfold applyRun
      rw [if_pos hc]
    rw [happ]
  · rw [applyRun_tags p hc]
    by_cases hdt : (productTagDiff p).doTags = true
    · rw [if_pos hdt]
      have hguard := productTagDiff_guard_of_doTags p hdt
      have htype : productDesiredType p ∈ TYPE_TAGS :=
        of_decide_eq_true ((Bool.and_eq_true _ _).mp hguard).2
      have heq : productTagDiff p = computeTagDiff p.tagsArr (productDesiredType p) := by
        unfold productTagDiff
        rw [if_pos hguard]
      rw [heq]
      exact mem_norm_desired p.tagsArr _ x htype hx
    · rw [if_neg hdt]

lemma applyRun_gateway (p : Product) :
    hasUsedGateway (applyRun p).tagsArr = hasUsedGateway p.tagsArr := by
  unfold hasUsedGateway
  rw [decide_eq_decide]
  exact or_congr (applyRun_tags_mem p _ (by decide)) (applyRun_tags_mem p _ (by decide))

lemma applyRun_cnfdnt (p : Product) :
    hasCnfdnt (applyRun p).tagsArr = hasCnfdnt p.tagsArr := by
  unfold hasCnfdnt
  rw [decide_eq_decide]
  exact applyRun_tags_mem p _ (by decide)

lemma applyRun_type (p : Product) (hc : ¬ hasCnfdnt p.tagsArr = true) :
    productDesiredType (applyRun p) = productDesiredType p := by
  unfold productDesiredType
  rw [applyRun_missing p hc, applyRun_mref p hc, applyRun_cost p hc]
  by_cases hm : productMissingMC p = true
  · rw [if_pos hm, if_pos hm]
  · rw [if_neg hm, if_neg hm]
    unfold determineTypeArigato
    rw [applyRun_gateway p]

lemma applyRun_pricing (p : Product) (hc : ¬ hasCnfdnt p.tagsArr = true) :
    productPricing (applyRun p) = productPricing p := by
  unfold productPricing
  rw [applyRun_missing p hc, applyRun_type p hc, applyRun_mref p hc, applyRun_cost p hc]

lemma applyRun_priceNew (p : Product) (hc : ¬ hasCnfdnt p.tagsArr = true) :
    productPriceNew (applyRun p) = productPriceNew p := by
  unfold productPriceNew
  rw [applyRun_pricing p hc]

lemma applyRun_asLowAs (p : Product) (hc : ¬ hasCnfdnt p.tagsArr = true) :
    productAsLowAsNew (applyRun p) = productAsLowAsNew p := by
  unfold productAsLowAsNew
  rw [applyRun_pricing p hc, applyRun_type p hc]

lemma applyRun_doDraft (p : Product) (hc : ¬ hasCnfdnt p.tagsArr = true) :
    productDoDraft (applyRun p) = false := by
  unfold productDoDraft
  rw [applyRun_missing p hc, applyRun_status p hc]
  by_cases hd : productDoDraft p = true
  · rw [if_pos hd]
    rw [show jsToLower "Draft" = "draft" from by decide]
    simp
  · rw [if_neg hd]
    rw [Bool.not_eq_true] at hd
    unfold productDoDraft at hd
    exact hd

lemma applyRun_doTags (p : Product) (hc : ¬ hasCnfdnt p.tagsArr = true) :
    (productTagDiff (applyRun p)).doTags = false := by
  unfold productTagDiff
  rw [applyRun_missing p hc, applyRun_type p hc]
  by_cases hg : (!productMissingMC p && decide (productDesiredType p ∈ TYPE_TAGS)) = true
  · rw [if_pos hg]
    have htyp : productDesiredType p ∈ TYPE_TAGS :=
      of_decide_eq_true ((Bool.and_eq_true _ _).mp hg).2
    by_cases hdt : (productTagDiff p).doTags = true
    · have htags : (applyRun p).tagsArr =
          (computeTagDiff p.tagsArr (productDesiredType p)).desiredTagsArr := by
        rw [applyRun_tags p hc, if_pos hdt]
        unfold productTagDiff
        rw [if_pos hg]
      rw [htags]
      refine (computeTagDiff_noop _ _ htyp ?_ ?_).2.2
      · rw [computeTagDiff_desired_eq _ _ htyp, List.map_append, List.mem_append]
        right
        simp only [List.map_cons, List.map_nil, List.mem_singleton]
        exact (normTag_type_fix _ htyp).symm
      · intro s hs hne hmem
        rw [computeTagDiff_desired_eq _ _ htyp, List.map_append, List.mem_append] at hmem
        rcases hmem with hmem | hmem
        · rcases List.mem_map.mp hmem with ⟨u, hu, he⟩
          have hu2 := (List.mem_filter.mp hu).2
          rw [decide_eq_true_eq] at hu2
          apply hu2
          rw [he]
          exact hs
        · simp only [List.map_cons, List.map_nil, List.mem_singleton] at hmem
          rw [normTag_type_fix _ htyp] at hmem
          exact hne hmem
    · have htags : (applyRun p).tagsArr = p.tagsArr := by
        rw [applyRun_tags p hc, if_neg hdt]
      rw [htags]
      have heq : productTagDiff p = computeTagDiff p.tagsArr (productDesiredType p) := by
        unfold productTagDiff
        rw [if_pos hg]
      rw [Bool.not_eq_true] at hdt
      rw [heq] at hdt
      exact hdt
  · rw [if_neg hg]

lemma applyRun_vtu (p : Product) (hc : ¬ hasCnfdnt p.tagsArr = true) :
    productVariantsToUpdate (applyRun p) = [] := by
  unfold productVariantsToUpdate
  rw [applyRun_missing p hc, applyRun_priceNew p hc]
  by_cases hm : productMissingMC p = true
  · rw [if_pos hm]
  · rw [if_neg hm]
    cases hpn : productPriceNew p with
    | none => rfl
    | some pn =>
      rw [applyRun_variants p hc]
      rw [List.map_eq_nil_iff, List.filter_eq_nil_iff]
      intro v2 hv2
      rcases List.mem_map.mp hv2 with ⟨v, hv, hve⟩
      intro hpred
      rw [← hve] at hpred
      by_cases hcv : (productVariantsToUpdate p).contains v.variantId = true
      · rw [if_pos hcv, hpn] at hpred
        rw [Bool.and_eq_true] at hpred
        have h2 := hpred.2
        have h3 : ({ v with price := some pn } : Variant).price = some pn := rfl
        rw [h3, approxEqualMoney_refl] at h2
        exact absurd h2 (by decide)
      · rw [if_neg hcv] at hpred
        apply hcv
        have hvtueq : productVariantsToUpdate p =
            (p.variants.filter
              (fun v => !(v.variantId == "") && !(approxEqualMoney v.price (some pn)))).map
              Variant.variantId := by
          unfold productVariantsToUpdate
          rw [if_neg hm, hpn]
        rw [hvtueq]
        have hmem : v.variantId ∈ (p.variants.filter
            (fun v => !(v.variantId == "") && !(approxEqualMoney v.price (some pn)))).map
            Variant.variantId :=
          List.mem_map.mpr ⟨v, List.mem_filter.mpr ⟨hv, hpred⟩, rfl⟩
        simpa using hmem

lemma applyRun_doPrice (p : Product) (hc : ¬ hasCnfdnt p.tagsArr = true) :
    productDoPrice (applyRun p) = false := by
  unfold productDoPrice
  rw [applyRun_vtu p hc]
  rfl

lemma applyRun_doMetafield (p : Product) (hc : ¬ hasCnfdnt p.tagsArr = true) :
    productDoMetafield (applyRun p) = false := by
  unfold productDoMetafield
  rw [applyRun_missing p hc, applyRun_type p hc, applyRun_asLowAs p hc]
  by_cases hm : productDoMetafield p = true
  · have hsome : (productAsLowAsNew p).isSome = true := by
      unfold productDoMetafield at hm
      rw [Bool.and_eq_true, Bool.and_eq_true, Bool.and_eq_true] at hm
      exact hm.1.2
    obtain ⟨al, hal⟩ := Option.isSome_iff_exists.mp hsome
    have hmf : (applyRun p).asLowAsCurrent = MfCell.numv al := by
      rw [applyRun_mfcell p hc, if_pos hm, hal]
    unfold productCurrentMf
    rw [hmf, hal]
    show (!productMissingMC p && decide (productDesiredType p = "standard") &&
      (some al).isSome && !((some al).isSome && approxEqualMoney (some al) (some al))) = false
    rw [approxEqualMoney_refl]
    simp
  · have hmf : (applyRun p).asLowAsCurrent = p.asLowAsCurrent := by
      rw [applyRun_mfcell p hc, if_neg hm]
    unfold productCurrentMf
    rw [hmf]
    rw [Bool.not_eq_true] at hm
    unfold productDoMetafield productCurrentMf at hm
    exact hm

lemma applyRun_needsChange (p : Product) (hc : ¬ hasCnfdnt p.tagsArr = true) :
    productNeedsChange (applyRun p) = false := by
  unfold productNeedsChange
  rw [applyRun_doDraft p hc, applyRun_doTags p hc, applyRun_doPrice p hc,
    applyRun_doMetafield p hc]
  rfl

/-- Claim C2: simulating the application of one run's instructions (scheduled
variant prices set to the target price, tags replaced by the desired list
when scheduled, status set to the draft marker when scheduled, the
advertised-from metafield set to the new value when scheduled) and running
the engine again yields `doDraft = doTags = doPrice = doMetafield = false`,
hence `needsChange = false`, for every product. -/
theorem engine_idempotent (p : Product) :
    engineDoDraft (applyRun p) = false ∧ engineDoTags (applyRun p) = false ∧
    engineDoPrice (applyRun p) = false ∧ engineDoMetafield (applyRun p) = false ∧
    engineNeedsChange (applyRun p) = false := by
  by_cases hc : hasCnfdnt p.tagsArr = true
  · have happ : applyRun p = p := by
      unfold applyRun
      rw [if_pos hc]
    unfold engineDoDraft engineDoTags engineDoPrice engineDoMetafield engineNeedsChange
    rw [happ, if_pos hc, if_pos hc, if_pos hc, if_pos hc, if_pos hc]
    exact ⟨rfl, rfl, rfl, rfl, rfl⟩
  · have hcq : ¬ hasCnfdnt (applyRun p).tagsArr = true := by
      rw [applyRun_cnfdnt p]
      exact hc
    unfold engineDoDraft engineDoTags engineDoPrice engineDoMetafield engineNeedsChange
    rw [if_neg hcq, if_neg hcq, if_neg hcq, if_neg hcq, if_neg hcq]
    exact ⟨applyRun_doDraft p hc, applyRun_doTags p hc, applyRun_doPrice p hc,
      applyRun_doMetafield p hc, applyRun_needsChange p hc⟩

end Matrixify
